import Mathlib

/-!
Verification of the voice registry (`pocket_tts/voices/voice_manager.py`).

The registry keeps a fixed map of predefined voices and a list of
file-discovered voices obtained by scanning a directory for `.wav` files,
each optionally paired with a same-stem `.txt` transcript file.

The filesystem is modelled as a structure `FS` describing the configured
voices directory at scan time:
  * `dirExists`, `dirIsDir` — results of `Path.exists()` / `Path.is_dir()`;
  * `entries` — the names of the directory entries in the (arbitrary)
    order the filesystem enumerates them; `glob("*.wav")` keeps those whose
    name ends with `".wav"` and `sorted` then sorts them by name;
  * `txtExists` — result of `Path.exists()` for a file of the given name
    in the directory;
  * `txtRead` — result of `Path.read_text(encoding="utf-8")` for a file of
    the given name: `.ok contents` on success, `.error msg` when the read
    raises (the code catches this and logs a warning);
  * `dirResolved` — `str(directory.resolve())`, so that the resolved path
    of an entry named `n` is `dirResolved ++ "/" ++ n`.
-/

namespace PocketTTS

/-- `VoiceInfo` dataclass: name, source ("predefined" or "file"),
optional file path and optional transcript. -/
structure VoiceInfo where
  name : String
  source : String
  file_path : Option String := none
  transcript : Option String := none
deriving DecidableEq, Repr

/-- Model of the voices directory as seen by one `refresh` scan. -/
structure FS where
  dirExists : Bool
  dirIsDir : Bool
  entries : List String
  txtExists : String → Bool
  txtRead : String → Except String String
  dirResolved : String

/-- Suffix test on strings, by their character lists.  `glob("*.wav")`
matches exactly the entries whose name ends with `".wav"` (fnmatch
compiles the pattern to the regex `.*\.wav`; dotfiles are not
special-cased by `pathlib`). -/
def strEndsWith (s t : String) : Bool :=
  t.data.isSuffixOf s.data

/-- `str.strip()`: remove leading and trailing whitespace. -/
def pyStrip (s : String) : String :=
  String.mk (((s.data.dropWhile Char.isWhitespace).reverse.dropWhile Char.isWhitespace).reverse)

/-- Index of the last `'.'` in a list of characters (`str.rfind('.')`),
`none` when there is no dot. -/
def lastDotIdx : List Char → Option Nat
  | [] => none
  | c :: cs =>
    match lastDotIdx cs with
    | some j => some (j + 1)
    | none => if c = '.' then some 0 else none

/-- `PurePath.stem`: the final component without its suffix.  CPython takes
`i = name.rfind('.')` and strips from `i` only when `0 < i < len(name) - 1`. -/
def fileStem (name : String) : String :=
  let cs := name.toList
  match lastDotIdx cs with
  | some i => if 0 < i ∧ i < cs.length - 1 then String.mk (cs.take i) else name
  | none => name

/-- `wav_path.with_suffix(".txt")`: the stem with a `".txt"` suffix. -/
def withSuffixTxt (name : String) : String := fileStem name ++ ".txt"

/-- Sorting used for `sorted(...)` on same-directory paths and on
dictionary keys: lexicographic string order. -/
def sortStrings (l : List String) : List String :=
  List.insertionSort (· ≤ ·) l

/-- The `try: transcript = txt_path.read_text(...).strip() except: pass`
block: transcript of the entry named `txt`, `none` when the file is absent
or the read raises. -/
def readTranscript (fs : FS) (txt : String) : Option String :=
  if fs.txtExists txt then
    match fs.txtRead txt with
    | .ok c => some (pyStrip c)
    | .error _ => none
  else none

/-- The `VoiceInfo` built for one matched `.wav` entry in the scan loop. -/
def mkFileVoice (fs : FS) (n : String) : VoiceInfo :=
  { name := fileStem n
    source := "file"
    file_path := some (fs.dirResolved ++ "/" ++ n)
    transcript := readTranscript fs (withSuffixTxt n) }

/-- `sorted(self._voices_directory.glob("*.wav"))`, by entry name. -/
def sortedWavNames (fs : FS) : List String :=
  sortStrings (fs.entries.filter (fun n => strEndsWith n ".wav"))

/-- The `.wav` entries a scan matches, in enumeration order. -/
def matchedWavs (fs : FS) : List String :=
  if fs.dirExists && fs.dirIsDir then
    fs.entries.filter (fun n => strEndsWith n ".wav")
  else []

/-- The new file-voice list a `refresh` builds: empty unless the directory
exists and is a directory, otherwise one `VoiceInfo` per sorted `.wav`
entry. -/
def scanDir (fs : FS) : List VoiceInfo :=
  if fs.dirExists && fs.dirIsDir then
    (sortedWavNames fs).map (mkFileVoice fs)
  else []

/-- Registry state: the predefined-voice map (a dict, modelled by its
item list) and the current file-voice list. -/
structure VMState where
  predefined_voices : List (String × String)
  file_voices : List VoiceInfo
deriving Repr

namespace VoiceManager

/-- `refresh`: rebuild the file-voice list from the directory and swap it
in; the predefined map is untouched. -/
def refresh (fs : FS) (st : VMState) : VMState :=
  { st with file_voices := scanDir fs }

/-- `__init__`: store the map, start from an empty file-voice list and
run one synchronous `refresh`. -/
def init (fs : FS) (predefined : List (String × String)) : VMState :=
  refresh fs { predefined_voices := predefined, file_voices := [] }

/-- A predefined-voice `VoiceInfo`: only `name` and `source` are set. -/
def mkPredefVoice (n : String) : VoiceInfo :=
  { name := n, source := "predefined" }

/-- `get_predefined_voices`: predefined voices sorted by name. -/
def get_predefined_voices (st : VMState) : List VoiceInfo :=
  (sortStrings (st.predefined_voices.map Prod.fst)).map mkPredefVoice

/-- `get_all_voices`: predefined voices sorted by name, then the current
file voices. -/
def get_all_voices (st : VMState) : List VoiceInfo :=
  (sortStrings (st.predefined_voices.map Prod.fst)).map mkPredefVoice
    ++ st.file_voices

/-- `get_file_voices`: a copy of the current file-voice list. -/
def get_file_voices (st : VMState) : List VoiceInfo :=
  st.file_voices

/-- `predefined_count`: `len(self._predefined_voices)`. -/
def predefined_count (st : VMState) : Nat :=
  st.predefined_voices.length

/-- `file_count`: `len(self._file_voices)`. -/
def file_count (st : VMState) : Nat :=
  st.file_voices.length

/-- `total_count`: `predefined_count + file_count`. -/
def total_count (st : VMState) : Nat :=
  predefined_count st + file_count st

end VoiceManager

/-- A POSIX-absolute path: one that begins with the character '/'
(`Path.resolve()` always returns such a path). -/
def isAbsolutePath (p : String) : Bool :=
  p.data.head? == some '/'

/-- The body of the scan loop of `refresh`, in the `Except` monad so that
a raising `read_text` is visible: the read is attempted only when the
transcript file exists, and a raise is caught by the `except` clause
(which logs a warning and leaves the transcript `None`). -/
def scanLoopE (fs : FS) : List String → Except String (List VoiceInfo)
  | [] => Except.ok []
  | n :: ns => do
    let transcript ←
      if fs.txtExists (withSuffixTxt n) then
        tryCatch
          (do
            let c ← fs.txtRead (withSuffixTxt n)
            pure (some (pyStrip c)))
          (fun _ => pure none)
      else pure none
    let rest ← scanLoopE fs ns
    pure (({ name := fileStem n, source := "file",
             file_path := some (fs.dirResolved ++ "/" ++ n),
             transcript := transcript } : VoiceInfo) :: rest)

/-- `refresh` in the `Except` monad: any exception the scan loop let
escape would surface here as `.error`. -/
def refreshE (fs : FS) (st : VMState) : Except String VMState := do
  if fs.dirExists && fs.dirIsDir then
    let newList ← scanLoopE fs (sortedWavNames fs)
    pure { st with file_voices := newList }
  else
    pure { st with file_voices := [] }

/-- A write to the one piece of shared mutable state
(`self._file_voices`).  The body of `with self._lock:` in `refresh` is a
single such assignment, performed after the whole new list is built. -/
inductive SharedWrite where
  | assign (l : List VoiceInfo)
deriving DecidableEq, Repr

/-- The sequence of guarded shared-state writes one `refresh` performs:
exactly one, of the fully built list. -/
def refreshWrites (fs : FS) : List SharedWrite :=
  [SharedWrite.assign (scanDir fs)]

/-- The shared file-voice list after a sequence of writes has been
applied to it. -/
def applyWrites (cur : List VoiceInfo) : List SharedWrite → List VoiceInfo
  | [] => cur
  | SharedWrite.assign l :: ws => applyWrites l ws

/-- Example directory: two voices, `bob.wav` paired with a readable
`bob.txt`, `alice.wav` unpaired, plus a non-wav entry, enumerated in
non-sorted order. -/
def fsA : FS :=
  { dirExists := true, dirIsDir := true
    entries := ["bob.wav", "alice.wav", "bob.txt", "notes.md"]
    txtExists := fun s => s == "bob.txt"
    txtRead := fun s => if s == "bob.txt" then .ok " Hello world " else .error "ENOENT"
    dirResolved := "/voices" }

/-- The same directory as `fsA`, enumerated in a different order. -/
def fsB : FS :=
  { fsA with entries := ["notes.md", "alice.wav", "bob.txt", "bob.wav"] }

/-- `fsA` with the directory missing. -/
def fsM : FS :=
  { fsA with dirExists := false }

/-- `fsA` with every transcript read raising (e.g. permission errors);
reads of files other than `bob.txt` agree with `fsA` (both raise
`ENOENT`). -/
def fsD : FS :=
  { fsA with txtRead := fun s => if s == "bob.txt" then .error "EACCES" else .error "ENOENT" }

/-- Directory holding the entries `.wav` and `.wav.wav`.  Both have stem
`.wav` (for `.wav` the dot is at index 0, so `Path.stem` keeps the whole
name), hence both pair with the transcript file `.wav.txt`, which exists
and whose read raises. -/
def fsC : FS :=
  { dirExists := true, dirIsDir := true
    entries := [".wav", ".wav.wav"]
    txtExists := fun s => s == ".wav.txt"
    txtRead := fun s => if s == ".wav.txt" then .error "io error" else .ok "other"
    dirResolved := "/voices" }

/-- `fsC` with the read of `.wav.txt` succeeding instead. -/
def fsC' : FS :=
  { fsC with txtRead := fun s => if s == ".wav.txt" then .ok "hi" else .ok "other" }

/-- Example registry state: constructed over `fsA` with one predefined
voice. -/
def stW : VMState :=
  VoiceManager.init fsA [("en_us_1", "english")]

open VoiceManager

theorem sortStrings_sorted (l : List String) : List.Sorted (· ≤ ·) (sortStrings l) :=
  List.sorted_insertionSort _ l

theorem sortStrings_perm (l : List String) : (sortStrings l).Perm l :=
  List.perm_insertionSort _ l

theorem sortStrings_eq_of_perm {l₁ l₂ : List String} (h : l₁.Perm l₂) :
    sortStrings l₁ = sortStrings l₂ :=
  List.eq_of_perm_of_sorted ((sortStrings_perm l₁).trans (h.trans (sortStrings_perm l₂).symm))
    (sortStrings_sorted l₁) (sortStrings_sorted l₂)

theorem sortStrings_length (l : List String) : (sortStrings l).length = l.length :=
  (sortStrings_perm l).length_eq

theorem mem_sortStrings {a : String} {l : List String} : a ∈ sortStrings l ↔ a ∈ l :=
  (sortStrings_perm l).mem_iff

theorem scanLoopE_eq (fs : FS) : ∀ ns : List String,
    scanLoopE fs ns = Except.ok (ns.map (mkFileVoice fs))
  | [] => rfl
  | n :: ns => by
    have ih := scanLoopE_eq fs ns
    simp only [scanLoopE, List.map_cons, ih]
    cases hte : fs.txtExists (withSuffixTxt n) with
    | false =>
      simp [hte, mkFileVoice, readTranscript, bind, Except.bind, pure, Except.pure]
    | true =>
      cases htr : fs.txtRead (withSuffixTxt n) with
      | ok c =>
        simp [hte, htr, mkFileVoice, readTranscript, tryCatch, tryCatchThe,
          MonadExceptOf.tryCatch, Except.tryCatch, bind, Except.bind, pure, Except.pure]
      | error e =>
        simp [hte, htr, mkFileVoice, readTranscript, tryCatch, tryCatchThe,
          MonadExceptOf.tryCatch, Except.tryCatch, bind, Except.bind, pure, Except.pure]

/-- C8: in every registry state `predefined_count` is the size of the
predefined map, `file_count` the length of the file-voice list,
`total_count` their sum, and `get_all_voices` returns exactly
`total_count` entries. -/
theorem c8_counts (st : VMState) :
    predefined_count st = st.predefined_voices.length
    ∧ file_count st = (get_file_voices st).length
    ∧ total_count st = predefined_count st + file_count st
    ∧ (get_all_voices st).length = total_count st := by
  refine ⟨rfl, rfl, rfl, ?_⟩
  simp [get_all_voices, total_count, predefined_count, file_count, sortStrings_length]

/-- C9: `refresh` performs exactly one write to the shared file-voice
list — the fully built new list, swapped in under the lock — so a reader
interrupting the write sequence at any point observes either the complete
pre-refresh list or the complete post-refresh list, never an intermediate
state. -/
theorem c9_reader_sees_pre_or_post_list (fs : FS) (pre : List VoiceInfo) (k : Nat) :
    applyWrites pre ((refreshWrites fs).take k) = pre
    ∨ applyWrites pre ((refreshWrites fs).take k) = scanDir fs := by
  cases k with
  | zero => exact Or.inl rfl
  | succ m => exact Or.inr (by simp [refreshWrites, applyWrites])

/-- C10: the file-voice list `refresh` installs depends only on the
scanned directory, not on the prior registry state, and `refresh` is
idempotent over an unchanged filesystem. -/
theorem c10_refresh_pure_function_of_directory (fs : FS) (st₁ st₂ st : VMState) :
    get_file_voices (VoiceManager.refresh fs st₁) = get_file_voices (VoiceManager.refresh fs st₂)
    ∧ get_file_voices (VoiceManager.refresh fs (VoiceManager.refresh fs st))
        = get_file_voices (VoiceManager.refresh fs st) :=
  ⟨rfl, rfl⟩

/-- C4: when the configured directory does not exist or is not a
directory, `refresh` — including the one run by the constructor —
installs an empty file-voice list: `file_count` is `0` and
`get_file_voices` is empty, with no error raised (the scan is a total
function). -/
theorem c4_missing_directory (fs : FS) (st : VMState) (pred : List (String × String))
    (h : fs.dirExists = false ∨ fs.dirIsDir = false) :
    file_count (VoiceManager.refresh fs st) = 0
    ∧ get_file_voices (VoiceManager.refresh fs st) = []
    ∧ file_count (VoiceManager.init fs pred) = 0
    ∧ get_file_voices (VoiceManager.init fs pred) = [] := by
  have hb : (fs.dirExists && fs.dirIsDir) = false := by
    rcases h with h | h <;> simp [h]
  simp [file_count, get_file_voices, VoiceManager.refresh, VoiceManager.init, scanDir, hb]

/-- Witness for C4 at a concrete missing directory. -/
theorem c4_missing_directory_witness :
    (fsM.dirExists = false ∨ fsM.dirIsDir = false)
    ∧ (file_count (VoiceManager.refresh fsM stW) = 0
      ∧ get_file_voices (VoiceManager.refresh fsM stW) = []
      ∧ file_count (VoiceManager.init fsM [("en_us_1", "english")]) = 0
      ∧ get_file_voices (VoiceManager.init fsM [("en_us_1", "english")]) = []) :=
  ⟨Or.inl rfl, c4_missing_directory fsM stW [("en_us_1", "english")] (Or.inl rfl)⟩

/-- C5: no exception escapes `refresh`: relative to the `Except`-monad
embedding of the scan (where `read_text` may raise and the loop catches
it), `refresh` always returns `ok` of the same total result; the read
accessors and counters contain no fallible operation at all and are
plain total functions of the state. -/
theorem c5_refresh_never_raises (fs : FS) (st : VMState) :
    refreshE fs st = Except.ok (VoiceManager.refresh fs st) := by
  cases hb : fs.dirExists && fs.dirIsDir with
  | false =>
    simp [refreshE, VoiceManager.refresh, scanDir, hb, pure, Except.pure]
  | true =>
    simp [refreshE, VoiceManager.refresh, scanDir, hb, scanLoopE_eq,
      bind, Except.bind, pure, Except.pure]

theorem map_name_map_mkPredefVoice (l : List String) :
    (l.map VoiceManager.mkPredefVoice).map VoiceInfo.name = l := by
  induction l with
  | nil => rfl
  | cons a t ih => simp [VoiceManager.mkPredefVoice, ih]

theorem mkFileVoice_congr {fs fs' : FS} (hte : fs.txtExists = fs'.txtExists)
    (htr : fs.txtRead = fs'.txtRead) (hdr : fs.dirResolved = fs'.dirResolved) :
    mkFileVoice fs = mkFileVoice fs' := by
  funext n
  simp [mkFileVoice, readTranscript, hte, htr, hdr]

theorem mem_scan_of_matched (fs : FS) (st : VMState)
    (hdir : (fs.dirExists && fs.dirIsDir) = true)
    (n : String) (hmem : n ∈ fs.entries) (hwav : strEndsWith n ".wav" = true) :
    mkFileVoice fs n ∈ get_file_voices (VoiceManager.refresh fs st) := by
  have h1 : n ∈ sortedWavNames fs := by
    unfold sortedWavNames
    rw [mem_sortStrings]
    exact List.mem_filter.mpr ⟨hmem, hwav⟩
  have h2 : mkFileVoice fs n ∈ (sortedWavNames fs).map (mkFileVoice fs) :=
    List.mem_map_of_mem _ h1
  simpa [get_file_voices, VoiceManager.refresh, scanDir, hdir] using h2

/-- C1: `get_all_voices` after a `refresh` is the predefined voices
sorted lexicographically by name followed by the file voices in the order
of the lexicographically sorted `.wav` filenames, and the result does not
depend on the order in which the filesystem enumerates the directory. -/
theorem c1_ordering_deterministic (fs fs' : FS) (st : VMState)
    (hperm : fs.entries.Perm fs'.entries)
    (hde : fs.dirExists = fs'.dirExists) (hdd : fs.dirIsDir = fs'.dirIsDir)
    (hte : fs.txtExists = fs'.txtExists) (htr : fs.txtRead = fs'.txtRead)
    (hdr : fs.dirResolved = fs'.dirResolved) :
    get_all_voices (VoiceManager.refresh fs st) = get_predefined_voices st ++ scanDir fs
    ∧ List.Sorted (· ≤ ·) ((get_predefined_voices st).map VoiceInfo.name)
    ∧ List.Sorted (· ≤ ·) (sortedWavNames fs)
    ∧ ((fs.dirExists && fs.dirIsDir) = true →
        get_file_voices (VoiceManager.refresh fs st)
          = (sortedWavNames fs).map (mkFileVoice fs))
    ∧ get_all_voices (VoiceManager.refresh fs st)
        = get_all_voices (VoiceManager.refresh fs' st) := by
  have hswn : sortedWavNames fs = sortedWavNames fs' := by
    unfold sortedWavNames
    exact sortStrings_eq_of_perm (hperm.filter _)
  have hscan : scanDir fs = scanDir fs' := by
    unfold scanDir
    rw [hde, hdd, hswn, mkFileVoice_congr hte htr hdr]
  refine ⟨rfl, ?_, ?_, ?_, ?_⟩
  · rw [get_predefined_voices, map_name_map_mkPredefVoice]
    exact sortStrings_sorted _
  · exact sortStrings_sorted _
  · intro h
    simp [get_file_voices, VoiceManager.refresh, scanDir, h]
  · simp [get_all_voices, VoiceManager.refresh, hscan]

/-- Witness for C1: the directory of `fsA` enumerated in two different
orders (`fsA`, `fsB`) yields identical, deterministically ordered
results. -/
theorem c1_ordering_deterministic_witness :
    get_all_voices (VoiceManager.refresh fsA stW) = get_predefined_voices stW ++ scanDir fsA
    ∧ List.Sorted (· ≤ ·) ((get_predefined_voices stW).map VoiceInfo.name)
    ∧ List.Sorted (· ≤ ·) (sortedWavNames fsA)
    ∧ ((fsA.dirExists && fsA.dirIsDir) = true →
        get_file_voices (VoiceManager.refresh fsA stW)
          = (sortedWavNames fsA).map (mkFileVoice fsA))
    ∧ get_all_voices (VoiceManager.refresh fsA stW)
        = get_all_voices (VoiceManager.refresh fsB stW) :=
  c1_ordering_deterministic fsA fsB stW (by decide) rfl rfl rfl rfl rfl

/-- C2: after a `refresh` over an existing directory, every matched
`.wav` entry contributes its `VoiceInfo` to the file-voice list; when the
same-stem `.txt` file exists and its read succeeds with contents `c`, the
transcript is the whitespace-stripped `c`; when no such `.txt` file
exists, the transcript is null. -/
theorem c2_transcript_pairing (fs : FS) (st : VMState)
    (hdir : (fs.dirExists && fs.dirIsDir) = true)
    (n : String) (hmem : n ∈ fs.entries) (hwav : strEndsWith n ".wav" = true) :
    mkFileVoice fs n ∈ get_file_voices (VoiceManager.refresh fs st)
    ∧ (∀ c, fs.txtExists (withSuffixTxt n) = true →
        fs.txtRead (withSuffixTxt n) = Except.ok c →
        (mkFileVoice fs n).transcript = some (pyStrip c))
    ∧ (fs.txtExists (withSuffixTxt n) = false →
        (mkFileVoice fs n).transcript = none) := by
  refine ⟨mem_scan_of_matched fs st hdir n hmem hwav, ?_, ?_⟩
  · intro c h1 h2
    simp [mkFileVoice, readTranscript, h1, h2]
  · intro h1
    simp [mkFileVoice, readTranscript, h1]

/-- Witness for C2: in `fsA`, `bob.wav` is paired with `bob.txt`
(contents `" Hello world "`) and `alice.wav` has no transcript file. -/
theorem c2_transcript_pairing_witness :
    mkFileVoice fsA "bob.wav" ∈ get_file_voices (VoiceManager.refresh fsA stW)
    ∧ (mkFileVoice fsA "bob.wav").transcript = some (pyStrip " Hello world ")
    ∧ (mkFileVoice fsA "alice.wav").transcript = none := by
  have hb := c2_transcript_pairing fsA stW rfl "bob.wav" (by decide) (by decide)
  have ha := c2_transcript_pairing fsA stW rfl "alice.wav" (by decide) (by decide)
  exact ⟨hb.1, hb.2.1 " Hello world " (by decide) rfl, ha.2.2 (by decide)⟩

/-- C3: `refresh` replaces the file-voice list wholesale: the new list is
exactly the scan result (one entry per matched `.wav` file), every entry
of the new list is backed by a `.wav` file present in the current scan,
and a voice name carried by no currently matched `.wav` file does not
appear after the refresh. -/
theorem c3_refresh_replaces_wholesale (fs : FS) (st : VMState) :
    get_file_voices (VoiceManager.refresh fs st) = scanDir fs
    ∧ (get_file_voices (VoiceManager.refresh fs st)).length = (matchedWavs fs).length
    ∧ (∀ v ∈ get_file_voices (VoiceManager.refresh fs st),
        ∃ n, n ∈ matchedWavs fs ∧ v = mkFileVoice fs n)
    ∧ ∀ s : String, (∀ n ∈ matchedWavs fs, fileStem n ≠ s) →
        ∀ v ∈ get_file_voices (VoiceManager.refresh fs st), v.name ≠ s := by
  have h3 : ∀ v ∈ get_file_voices (VoiceManager.refresh fs st),
      ∃ n, n ∈ matchedWavs fs ∧ v = mkFileVoice fs n := by
    intro v hv
    simp only [get_file_voices, VoiceManager.refresh, scanDir] at hv
    by_cases hb : (fs.dirExists && fs.dirIsDir) = true
    · rw [if_pos hb] at hv
      obtain ⟨n, hn, rfl⟩ := List.mem_map.mp hv
      refine ⟨n, ?_, rfl⟩
      unfold sortedWavNames at hn
      unfold matchedWavs
      rw [if_pos hb]
      exact mem_sortStrings.mp hn
    · rw [if_neg hb] at hv
      exact absurd hv (List.not_mem_nil v)
  have h2 : (get_file_voices (VoiceManager.refresh fs st)).length
      = (matchedWavs fs).length := by
    by_cases hb : (fs.dirExists && fs.dirIsDir) = true
    · simp [get_file_voices, VoiceManager.refresh, scanDir, matchedWavs, hb,
        sortedWavNames, sortStrings_length]
    · simp [get_file_voices, VoiceManager.refresh, scanDir, matchedWavs, hb]
  refine ⟨rfl, h2, h3, ?_⟩
  intro s hs v hv
  obtain ⟨n, hn, rfl⟩ := h3 v hv
  exact hs n hn

/-- Witness for C3: over `fsA`, the refreshed list is the scan result and
the `alice` voice is backed by a matched `.wav` file. -/
theorem c3_refresh_replaces_wholesale_witness :
    get_file_voices (VoiceManager.refresh fsA stW) = scanDir fsA
    ∧ (∃ n, n ∈ matchedWavs fsA ∧ mkFileVoice fsA "alice.wav" = mkFileVoice fsA n) :=
  ⟨(c3_refresh_replaces_wholesale fsA stW).1,
    (c3_refresh_replaces_wholesale fsA stW).2.2.1 (mkFileVoice fsA "alice.wav")
      (mem_scan_of_matched fsA stW rfl "alice.wav" (by decide) (by decide))⟩

theorem isAbsolutePath_append (s t : String) (h : isAbsolutePath s = true) :
    isAbsolutePath (s ++ t) = true := by
  unfold isAbsolutePath at h ⊢
  cases hd : s.data with
  | nil => rw [hd] at h; simp at h
  | cons c cs =>
    rw [hd] at h
    simp only [List.head?, beq_iff_eq, Option.some.injEq] at h
    rw [String.data_append, hd]
    simp [h]

/-- C7: every `VoiceInfo` the registry produces — via `refresh` followed
by any accessor, or via `get_predefined_voices` — carries no file path
and no transcript when its source is `predefined`, and a non-null
absolute file path when its source is `file` (given that the resolved
directory path is absolute, as `Path.resolve()` guarantees). -/
theorem c7_source_invariant (fs : FS) (st : VMState)
    (habs : isAbsolutePath fs.dirResolved = true) :
    ∀ v : VoiceInfo,
      (v ∈ get_all_voices (VoiceManager.refresh fs st)
        ∨ v ∈ get_predefined_voices st
        ∨ v ∈ get_file_voices (VoiceManager.refresh fs st)) →
      (v.source = "predefined" → v.file_path = none ∧ v.transcript = none)
      ∧ (v.source = "file" → ∃ p, v.file_path = some p ∧ isAbsolutePath p = true) := by
  intro v hv
  have hcases : v ∈ (sortStrings (st.predefined_voices.map Prod.fst)).map mkPredefVoice
      ∨ v ∈ scanDir fs := by
    rcases hv with h | h | h
    · simpa [get_all_voices, VoiceManager.refresh] using h
    · exact Or.inl h
    · exact Or.inr h
  rcases hcases with h | h
  · obtain ⟨n, _, rfl⟩ := List.mem_map.mp h
    refine ⟨fun _ => ⟨rfl, rfl⟩, fun hsrc => by simp [mkPredefVoice] at hsrc⟩
  · by_cases hb : (fs.dirExists && fs.dirIsDir) = true
    · rw [scanDir, if_pos hb] at h
      obtain ⟨n, _, rfl⟩ := List.mem_map.mp h
      refine ⟨fun hsrc => by simp [mkFileVoice] at hsrc, fun _ => ?_⟩
      exact ⟨fs.dirResolved ++ "/" ++ n, rfl,
        isAbsolutePath_append _ n (isAbsolutePath_append _ "/" habs)⟩
    · rw [scanDir, if_neg hb] at h
      exact absurd h (List.not_mem_nil v)

/-- Witness for C7: a predefined voice of `stW` carries neither path nor
transcript; the `alice` file voice carries an absolute path. -/
theorem c7_source_invariant_witness :
    ((mkPredefVoice "en_us_1").file_path = none
      ∧ (mkPredefVoice "en_us_1").transcript = none)
    ∧ (∃ p, (mkFileVoice fsA "alice.wav").file_path = some p
        ∧ isAbsolutePath p = true) :=
  ⟨(c7_source_invariant fsA stW rfl (mkPredefVoice "en_us_1")
      (Or.inr (Or.inl (by decide)))).1 rfl,
   (c7_source_invariant fsA stW rfl (mkFileVoice fsA "alice.wav")
      (Or.inr (Or.inr (mem_scan_of_matched fsA stW rfl "alice.wav"
        (by decide) (by decide))))).2 rfl⟩

/-- Counterexample to C6 as stated: in the directory of `fsC` the entries
`.wav` and `.wav.wav` both have stem `.wav` (a dot at index 0 is not a
suffix separator for `Path.stem`), so both pair with the single
transcript file `.wav.txt`.  With the read of `.wav.txt` failing in `fsC`
and succeeding in `fsC'`, the result for `.wav.wav` — another `.wav` file
of the same scan — changes as well, contradicting the claim that every
other `.wav` file is unaffected. -/
theorem c6_counterexample :
    fsC.dirExists = true ∧ fsC.dirIsDir = true
    ∧ ".wav" ∈ fsC.entries ∧ strEndsWith ".wav" ".wav" = true
    ∧ fsC.txtExists (withSuffixTxt ".wav") = true
    ∧ fsC.txtRead (withSuffixTxt ".wav") = Except.error "io error"
    ∧ fsC'.txtRead (withSuffixTxt ".wav") = Except.ok "hi"
    ∧ (∀ s, s ≠ withSuffixTxt ".wav" → fsC.txtRead s = fsC'.txtRead s)
    ∧ fsC.dirExists = fsC'.dirExists ∧ fsC.dirIsDir = fsC'.dirIsDir
    ∧ fsC.entries = fsC'.entries ∧ fsC.txtExists = fsC'.txtExists
    ∧ fsC.dirResolved = fsC'.dirResolved
    ∧ ¬ (∀ m ∈ matchedWavs fsC, m ≠ ".wav" → mkFileVoice fsC m = mkFileVoice fsC' m) := by
  refine ⟨rfl, rfl, by decide, by decide, rfl, rfl, rfl, ?_, rfl, rfl, rfl, rfl, rfl, ?_⟩
  · intro s hs
    have hs' : s ≠ ".wav.txt" := hs
    simp [fsC, fsC', hs']
  · intro hall
    exact absurd (hall ".wav.wav" (by decide) (by decide)) (by decide)

/-- C6 (amended): an unreadable transcript file leaves its paired voice
in the scan result with a null transcript, and leaves the result of every
other `.wav` file unchanged — provided that other file's derived
transcript filename differs (two `.wav` entries can share one transcript
file when their stems coincide, e.g. `.wav` and `.wav.wav`, and such a
sharer changes together with the failing read). -/
theorem c6_amended_bad_transcript_resilience (fs fs' : FS) (st : VMState) (n e : String)
    (hde : fs.dirExists = fs'.dirExists) (hdd : fs.dirIsDir = fs'.dirIsDir)
    (hen : fs.entries = fs'.entries) (hte : fs.txtExists = fs'.txtExists)
    (hdr : fs.dirResolved = fs'.dirResolved)
    (hagree : ∀ s, s ≠ withSuffixTxt n → fs.txtRead s = fs'.txtRead s)
    (hdir : (fs.dirExists && fs.dirIsDir) = true)
    (hmem : n ∈ fs.entries) (hwav : strEndsWith n ".wav" = true)
    (htxt : fs.txtExists (withSuffixTxt n) = true)
    (hfail : fs.txtRead (withSuffixTxt n) = Except.error e) :
    mkFileVoice fs n ∈ get_file_voices (VoiceManager.refresh fs st)
    ∧ (mkFileVoice fs n).transcript = none
    ∧ ∀ m, m ∈ matchedWavs fs → withSuffixTxt m ≠ withSuffixTxt n →
        mkFileVoice fs m = mkFileVoice fs' m := by
  refine ⟨mem_scan_of_matched fs st hdir n hmem hwav, ?_, ?_⟩
  · simp [mkFileVoice, readTranscript, htxt, hfail]
  · intro m hm hne
    simp [mkFileVoice, readTranscript, hte, hdr, hagree _ hne]

/-- Witness for the amended C6: in `fsD` the read of `bob.txt` raises;
`bob` still appears with a null transcript and all other voices match
those of `fsA`, where the read succeeds. -/
theorem c6_amended_witness :
    mkFileVoice fsD "bob.wav" ∈ get_file_voices (VoiceManager.refresh fsD stW)
    ∧ (mkFileVoice fsD "bob.wav").transcript = none
    ∧ ∀ m, m ∈ matchedWavs fsD → withSuffixTxt m ≠ withSuffixTxt "bob.wav" →
        mkFileVoice fsD m = mkFileVoice fsA m :=
  c6_amended_bad_transcript_resilience fsD fsA stW "bob.wav" "EACCES" rfl rfl rfl rfl rfl
    (by
      intro s hs
      have hs' : s ≠ "bob.txt" := hs
      simp [fsD, fsA, hs'])
    rfl (by decide) (by decide) rfl rfl

end PocketTTS
